import Mathlib

/-!
Verification of `src/b4os-backend/src/lib/classroom_sync.py` (GitHub Classroom
to Supabase sync tool).  Python strings are embedded as `List Char`, Python
`None` as `Option`, timestamps as integer epoch seconds, and the external
collaborators (GitHub CLI fetches, Supabase writes) as explicit oracle
functions passed to the embedded operations.
-/

namespace ClassroomSync

/-- Python string as a list of characters. -/
abbrev Str := List Char

/-! ### Character-level helpers (Python `str.lower`, `\s`, `str.strip`)

ASCII code points: 'A' = 65, 'Z' = 90, 'a' = 97, 'z' = 122, '0' = 48,
'9' = 57, '-' = 45; whitespace `\s` = space 32, tab 9, newline 10,
carriage return 13, vertical tab 11, form feed 12. -/

/-- Python `str.lower()` on ASCII: map 'A'..'Z' to 'a'..'z'. -/
def pyLower (c : Char) : Char :=
  if 65 ≤ c.toNat ∧ c.toNat ≤ 90 then Char.ofNat (c.toNat + 32) else c

/-- Python regex `\s` (ASCII whitespace class). -/
def isPySpace (c : Char) : Bool :=
  decide (c.toNat = 32 ∨ c.toNat = 9 ∨ c.toNat = 10 ∨ c.toNat = 13 ∨
          c.toNat = 11 ∨ c.toNat = 12)

/-- Characters kept by `re.sub(r'[^a-z0-9\s-]', '', ...)` in
`format_assignment_name`: lowercase letters, digits, whitespace, hyphen. -/
def keepChar (c : Char) : Bool :=
  decide (97 ≤ c.toNat ∧ c.toNat ≤ 122) ||
  decide (48 ≤ c.toNat ∧ c.toNat ≤ 57) ||
  isPySpace c || (c == '-')

/-- Replace every maximal run of characters satisfying `p` by the single
character `rep`; the boolean flag records whether the previous character was
inside such a run.  `collapseRuns p rep` is the semantics of
`re.sub(X+, rep, s)` for a character class `X`. -/
def collapseRunsAux (p : Char → Bool) (rep : Char) : Bool → Str → Str
  | _, [] => []
  | prevRun, c :: cs =>
    if p c then
      (if prevRun then collapseRunsAux p rep true cs
       else rep :: collapseRunsAux p rep true cs)
    else c :: collapseRunsAux p rep false cs

/-- Semantics of `re.sub(X+, rep, s)` for a one-character-class regex. -/
def collapseRuns (p : Char → Bool) (rep : Char) (l : Str) : Str :=
  collapseRunsAux p rep false l

/-- Remove the trailing run of characters satisfying `p`. -/
def dropTrailing (p : Char → Bool) : Str → Str
  | [] => []
  | c :: cs =>
    match dropTrailing p cs with
    | [] => if p c then [] else [c]
    | r => c :: r

/-- Python `str.strip(x)` for a single strip character `x`. -/
def stripChar (x : Char) (l : Str) : Str :=
  dropTrailing (fun c => c == x) (l.dropWhile (fun c => c == x))

/-- Python `str.strip()` (strip ASCII whitespace from both ends). -/
def pyStrip (l : Str) : Str :=
  dropTrailing isPySpace (l.dropWhile isPySpace)

/-! ### `format_assignment_name` (classroom_sync.py lines 718-742) -/

/-- The pure normalization pipeline of `format_assignment_name`:
lowercase, delete characters outside `[a-z0-9\s-]`, replace whitespace runs
by a single hyphen, collapse hyphen runs, strip leading/trailing hyphens. -/
def formatNamePipeline (l : Str) : Str :=
  stripChar '-'
    (collapseRuns (fun c => c == '-') '-'
      (collapseRuns isPySpace '-' ((l.map pyLower).filter keepChar)))

/-- `format_assignment_name`: raises `DataValidationError` (modelled as
`Except.error ()`) on an empty name, otherwise returns the normalized name. -/
def format_assignment_name (l : Str) : Except Unit Str :=
  if l = [] then Except.error () else Except.ok (formatNamePipeline l)

/-! ### Idempotence infrastructure for the normalizer -/

/-- Characters that can appear in a normalized name: a-z, 0-9, hyphen. -/
def goodChar (c : Char) : Prop :=
  (97 ≤ c.toNat ∧ c.toNat ≤ 122) ∨ (48 ≤ c.toNat ∧ c.toNat ≤ 57) ∨ c = '-'

/-- The relation "not two adjacent characters both satisfy `p`". -/
def noTwo (p : Char → Bool) (a b : Char) : Prop := ¬(p a = true ∧ p b = true)

/-! ### `_parse_assignments_list` (classroom_sync.py lines 274-303) -/

/-- Python `str.split(sep)` for a one-character separator (keeps empty
fields). -/
def splitOnChar (sep : Char) : Str → List Str
  | [] => [[]]
  | c :: cs =>
    match splitOnChar sep cs with
    | [] => [[]]
    | r :: rs => if c == sep then [] :: r :: rs else (c :: r) :: rs

/-- The loop body of `_parse_assignments_list` (lines 297-301):
`if line.strip(): parts = line.split('\t'); if len(parts) >= 7:
assignments.append((parts[0], parts[1], parts[6]))`. -/
def parseAssignmentStep (acc : List (Str × Str × Str)) (line : Str) :
    List (Str × Str × Str) :=
  if pyStrip line ≠ [] then
    if 7 ≤ (splitOnChar '\t' line).length then
      acc ++ [((splitOnChar '\t' line).getD 0 [], (splitOnChar '\t' line).getD 1 [],
               (splitOnChar '\t' line).getD 6 [])]
    else acc
  else acc

/-- `_parse_assignments_list`: strip the output, split into lines, require at
least 4 lines (3-line header, modelled error = `DataValidationError`), then
for each non-blank data line split on tabs and, when at least 7 fields are
present, keep `(parts[0], parts[1], parts[6])`; shorter lines are skipped. -/
def parse_assignments_list (output : Str) : Except Unit (List (Str × Str × Str)) :=
  if (splitOnChar '\n' (pyStrip output)).length < 4 then Except.error ()
  else Except.ok
    (((splitOnChar '\n' (pyStrip output)).drop 3).foldl parseAssignmentStep [])

/-- Spec-side extraction of one data line (used to state what the parser
returns): non-blank lines with at least 7 tab-separated fields yield fields
0, 1 and 6. -/
def extractAssignmentLine (line : Str) : Option (Str × Str × Str) :=
  if pyStrip line ≠ [] ∧ 7 ≤ (splitOnChar '\t' line).length then
    some ((splitOnChar '\t' line).getD 0 [], (splitOnChar '\t' line).getD 1 [],
          (splitOnChar '\t' line).getD 6 [])
  else none

/-! ### `calculate_resolution_time` (lines 457-485) and its use in
`refresh_admin_leaderboard` (lines 641-648) -/

/-- `calculate_resolution_time`: `None` if either timestamp is missing,
otherwise `int((updated - created).total_seconds() / 3600)`; Python `int()`
truncates toward zero, i.e. `Int.tdiv`. -/
def calculate_resolution_time (created_at updated_at : Option Int) : Option Int :=
  match created_at, updated_at with
  | some c, some u => some (Int.tdiv (u - c) 3600)
  | _, _ => none

/-- Resolution time as computed in `refresh_admin_leaderboard`: only when the
student `has_fork`, else `None`. -/
def leaderboardResolutionTime (has_fork : Bool)
    (created_at updated_at : Option Int) : Option Int :=
  if has_fork then calculate_resolution_time created_at updated_at else none

/-! ### Points-available resolution in `process_assignments_in_memory`
(lines 1059-1080).  A grade row's `points_available` cell is `Option Int`
(`none` = NaN/missing). -/

/-- `df['points_available'].max()`: pandas max skipping NaN; NaN iff all
values are NaN. -/
def pandasMaxPA (rows : List (Option Int)) : Option Int :=
  rows.foldl (fun acc r =>
    match acc, r with
    | none, v => v
    | some m, none => some m
    | some m, some v => some (max m v)) none

/-- `df[df['points_available'] > 0]['points_available'].iloc[0]`: the first
strictly positive value, if any. -/
def firstPositivePA (rows : List (Option Int)) : Option Int :=
  rows.findSome? (fun r =>
    match r with
    | some v => if 0 < v then some v else none
    | none => none)

/-- Does `pat` occur at the start of the text? -/
def beginsWith : Str → Str → Bool
  | [], _ => true
  | _ :: _, [] => false
  | p :: ps, c :: cs => p == c && beginsWith ps cs

/-- Python `pat in s` substring test. -/
def containsSub (pat : Str) : Str → Bool
  | [] => beginsWith pat []
  | c :: cs => beginsWith pat (c :: cs) || containsSub pat cs

/-- The fallback of the points-available resolution (lines 1066-1077): first
positive value, else 100 when `'part-2' in formatted_name.lower()`, else
unset. -/
def paFallback (formatted_name : Str) (rows : List (Option Int)) : Option Int :=
  match firstPositivePA rows with
  | some v => some v
  | none =>
    if containsSub ("part-2".toList) (formatted_name.map pyLower) then some 100
    else none

/-- The complete per-assignment `points_available` resolution of
`process_assignments_in_memory` (lines 1059-1077): the pandas maximum, and if
that is zero or NaN, the fallback. -/
def resolvePointsAvailable (formatted_name : Str) (rows : List (Option Int)) :
    Option Int :=
  match pandasMaxPA rows with
  | none => paFallback formatted_name rows
  | some m => if m = 0 then paFallback formatted_name rows else some m

/-- The four-step policy in the words of spec section 4.2, which tests
`part-2` against the normalized key itself (no lowering). -/
def paFallbackSpec (key : Str) (rows : List (Option Int)) : Option Int :=
  match firstPositivePA rows with
  | some v => some v
  | none => if containsSub ("part-2".toList) key then some 100 else none

/-- Spec-side statement of the resolution policy. -/
def resolvePointsAvailableSpec (key : Str) (rows : List (Option Int)) :
    Option Int :=
  match pandasMaxPA rows with
  | none => paFallbackSpec key rows
  | some m => if m = 0 then paFallbackSpec key rows else some m

/-! ### `refresh_admin_leaderboard` score computation (lines 579-664) -/

/-- A row of the `zzz_assignments` table (fields read by the leaderboard). -/
structure AssignmentRow where
  name : Str
  points_available : Option Int
deriving DecidableEq

/-- A row of the `zzz_grades` table (fields read by the leaderboard). -/
structure GradeRow where
  github_username : Str
  assignment_name : Str
  points_awarded : Option Int
deriving DecidableEq

/-- Python truthiness of an optional integer: `None` and `0` are falsy. -/
def truthyInt : Option Int → Bool
  | none => false
  | some v => v != 0

/-- The dictionary comprehension of line 594: keep assignments with truthy
`points_available`; later duplicates overwrite. -/
def assignmentPointsBase (assignments : List AssignmentRow) : Str → Option Int :=
  assignments.foldl
    (fun d a =>
      if truthyInt a.points_available then
        fun n => if n = a.name then a.points_available else d n
      else d)
    (fun _ => none)

/-- `max(..., default=0)` over the truthy awarded points of one assignment
(lines 601-605). -/
def maxAwardedFor (grades : List GradeRow) (n : Str) : Int :=
  match grades.filterMap (fun g =>
      if g.assignment_name = n ∧ truthyInt g.points_awarded then
        some (g.points_awarded.getD 0)
      else none) with
  | [] => 0
  | v :: vs => vs.foldl max v

/-- `set(g['assignment_name'] for g in grades_result.data)` membership. -/
def gradeNames (grades : List GradeRow) : List Str :=
  grades.map (fun g => g.assignment_name)

/-- The `assignment_points` dictionary after the KISS inference loop
(lines 596-608): for assignment names occurring in the grades whose base
entry is missing or zero, the maximum awarded points is used when positive. -/
def resolvedAssignmentPoints (assignments : List AssignmentRow)
    (grades : List GradeRow) : Str → Option Int :=
  fun n =>
    let base := assignmentPointsBase assignments n
    if n ∈ gradeNames grades ∧ (base = none ∨ base = some 0) then
      if 0 < maxAwardedFor grades n then some (maxAwardedFor grades n) else base
    else base

/-- `len(assignments_result.data) if assignments_result.data else 1`
(line 611). -/
def totalSystemAssignments (assignments : List AssignmentRow) : Nat :=
  if assignments = [] then 1 else assignments.length

/-- The guard of one term of `sum_of_progresss` (line 637):
`grade['points_awarded'] and assignment_points.get(name, 0) > 0`. -/
def progressTermGuard (pts : Str → Option Int) (g : GradeRow) : Bool :=
  truthyInt g.points_awarded && decide (0 < (pts g.assignment_name).getD 0)

/-- The divisor of one term (line 635): `assignment_points.get(name, 1)`. -/
def progressTermDivisor (pts : Str → Option Int) (g : GradeRow) : Int :=
  (pts g.assignment_name).getD 1

/-- One term of `sum_of_progresss` (lines 634-638). -/
def progressTerm (pts : Str → Option Int) (g : GradeRow) : ℚ :=
  if progressTermGuard pts g then
    ((g.points_awarded.getD 0 : ℚ) / (progressTermDivisor pts g : ℚ)) * 100
  else 0

/-- `sum_of_progresss` over one student's grade rows. -/
def sumOfProgress (pts : Str → Option Int) (sgrades : List GradeRow) : ℚ :=
  (sgrades.map (progressTerm pts)).sum

/-- Python `round` on an exact rational: round half to even. -/
def pythonRound (q : ℚ) : Int :=
  if q - Int.floor q < 1/2 then Int.floor q
  else if (1/2 : ℚ) < q - Int.floor q then Int.floor q + 1
  else if 2 ∣ Int.floor q then Int.floor q else Int.floor q + 1

/-- `percentage` for one student (lines 621-639):
`round(sum_of_progresss / total_system_assignments)` over that student's
grade rows. -/
def studentPercentage (assignments : List AssignmentRow) (grades : List GradeRow)
    (u : Str) : Int :=
  pythonRound
    (sumOfProgress (resolvedAssignmentPoints assignments grades)
        (grades.filter (fun g => g.github_username = u)) /
      (totalSystemAssignments assignments : ℚ))

/-- Spec-side term: `points_awarded / points_available * 100`, counting only
assignments with resolved positive `points_available` and non-null
`points_awarded` (spec section 4.3). -/
def progressTermSpec (pts : Str → Option Int) (g : GradeRow) : ℚ :=
  match g.points_awarded, pts g.assignment_name with
  | some a, some p => if 0 < p then ((a : ℚ) / (p : ℚ)) * 100 else 0
  | _, _ => 0

/-- Spec-side percentage: the round of the spec-side sum divided by the
system-wide assignment count. -/
def studentPercentageSpec (assignments : List AssignmentRow)
    (grades : List GradeRow) (u : Str) : Int :=
  pythonRound
    (((grades.filter (fun g => g.github_username = u)).map
          (progressTermSpec (resolvedAssignmentPoints assignments grades))).sum /
      (totalSystemAssignments assignments : ℚ))

/-- Example snapshot for C1: four assignments worth 50 points, one student
graded 50/50 on the first. -/
def c1ExampleAssignments : List AssignmentRow :=
  [⟨"a1".toList, some 50⟩, ⟨"a2".toList, some 50⟩,
   ⟨"a3".toList, some 50⟩, ⟨"a4".toList, some 50⟩]

/-- The single grade row of the C1 example. -/
def c1ExampleGrades : List GradeRow :=
  [⟨"student1".toList, "a1".toList, some 50⟩]

/-! ### Ranking (lines 666-682) -/

/-- The fields of a leaderboard entry read by the ranking key. -/
structure LBEntry where
  github_username : Str
  resolution_time_hours : Option Int
  progress : Int
deriving DecidableEq

/-- Python string `<`: lexicographic comparison by code point. -/
def strLtb : Str → Str → Bool
  | [], [] => false
  | [], _ :: _ => true
  | _ :: _, [] => false
  | a :: xs, b :: ys =>
    if a < b then true else if b < a then false else strLtb xs ys

/-- The Python sort key of lines 670-674:
`(rt if rt is not None else 999999, -progress, username)`. -/
def rankKey (e : LBEntry) : Int × Int × Str :=
  (e.resolution_time_hours.getD 999999, -e.progress, e.github_username)

/-- Strict lexicographic comparison of two sort keys. -/
def keyLt (k1 k2 : Int × Int × Str) : Prop :=
  k1.1 < k2.1 ∨ (k1.1 = k2.1 ∧
    (k1.2.1 < k2.2.1 ∨ (k1.2.1 = k2.2.1 ∧ strLtb k1.2.2 k2.2.2 = true)))

instance : DecidableRel keyLt := fun a b => by unfold keyLt; infer_instance

/-- Strict ranking order on leaderboard entries. -/
def rankLt (a b : LBEntry) : Prop := keyLt (rankKey a) (rankKey b)

instance : DecidableRel rankLt := fun a b => by unfold rankLt; infer_instance

/-- The sorting relation: `a` does not come strictly after `b`. -/
def rankLE (a b : LBEntry) : Prop := ¬ keyLt (rankKey b) (rankKey a)

instance : DecidableRel rankLE := fun a b => by unfold rankLE; infer_instance

/-- `leaderboard_data.sort(key=...)` of lines 670-674. -/
def sortLeaderboard (l : List LBEntry) : List LBEntry :=
  List.insertionSort rankLE l

/-- `enumerate(leaderboard_data, 1)` (lines 680-682): attach 1-based ranking
positions after sorting. -/
def rankPositions (l : List LBEntry) : List (LBEntry × Nat) :=
  (sortLeaderboard l).enum.map (fun p => (p.2, p.1 + 1))

/-- The example students A, B, C of spec section 8. -/
def entryA : LBEntry := ⟨"a".toList, some 10, 80⟩

/-- Student B of the ranking example. -/
def entryB : LBEntry := ⟨"b".toList, some 10, 90⟩

/-- Student C of the ranking example. -/
def entryC : LBEntry := ⟨"c".toList, none, 100⟩

/-! ### Student aggregation in `process_assignments_in_memory`
(lines 1094-1178) -/

/-- Result of `get_repository_info` (lines 430-438). -/
structure RepoInfo where
  created_at : Option Int
  updated_at : Option Int
  is_fork : Bool
deriving DecidableEq

/-- Result of `get_workflow_runs` (lines 546-552). -/
structure WorkflowInfo where
  total_attempts : Int
  successful_attempts : Int
  failed_attempts : Int
  first_attempt_at : Option Int
  last_attempt_at : Option Int
deriving DecidableEq

/-- One row of a grade-export CSV (the fields read by the student loop). -/
structure CsvRow where
  github_username : Str
  student_repository_url : Str
  points_awarded : Option Int
deriving DecidableEq

/-- One value of the `students_with_repo_info` dictionary. -/
structure StudentRecord where
  fork_created_at : Option Int
  last_updated_at : Option Int
  resolution_time_hours : Option Int
  has_fork : Bool
deriving DecidableEq

/-- One element of `assignment_attempts` (lines 1126-1137). -/
structure AttemptRecord where
  github_username : Str
  assignment_name : Str
  repo_url : Str
  total_attempts : Int
  successful_attempts : Int
  failed_attempts : Int
  first_attempt_at : Option Int
  last_attempt_at : Option Int
  fork_created_at : Option Int
  fork_updated_at : Option Int
deriving DecidableEq

/-- The in-memory accumulation state (insertion-ordered dictionaries). -/
structure ProcessState where
  students : List (Str × StudentRecord)
  attempts : List AttemptRecord
deriving DecidableEq

/-- The student record stored for a non-fork / failed-fetch repository
(lines 1157-1175). -/
def noForkStudent : StudentRecord := ⟨none, none, none, false⟩

/-- `if github_username not in students_with_repo_info: ...` (first write
wins). -/
def addStudentIfAbsent (students : List (Str × StudentRecord)) (u : Str)
    (r : StudentRecord) : List (Str × StudentRecord) :=
  if (students.lookup u).isSome then students else students ++ [(u, r)]

/-- Processing of one grade row of one assignment (lines 1094-1178),
restricted to the `students_with_repo_info` and `assignment_attempts`
effects.  `fetchRepo`/`fetchRuns` are the GitHub fetch oracles (`none` =
fetch failed).  Rows with an empty repository URL are skipped entirely. -/
def processRow (fetchRepo : Str → Option RepoInfo)
    (fetchRuns : Str → Option WorkflowInfo) (assignment_name : Str)
    (st : ProcessState) (row : CsvRow) : ProcessState :=
  if row.student_repository_url ≠ [] then
    match fetchRepo row.student_repository_url with
    | some info =>
      if info.is_fork then
        let forkStudent : StudentRecord :=
          ⟨info.created_at, info.updated_at,
           calculate_resolution_time info.created_at info.updated_at, true⟩
        let st1 : ProcessState :=
          match fetchRuns row.student_repository_url with
          | some w =>
            ⟨st.students,
             st.attempts ++
               [⟨row.github_username, assignment_name,
                 row.student_repository_url, w.total_attempts,
                 w.successful_attempts, w.failed_attempts,
                 w.first_attempt_at, w.last_attempt_at,
                 info.created_at, info.updated_at⟩]⟩
          | none => st
        ⟨addStudentIfAbsent st1.students row.github_username forkStudent,
         st1.attempts⟩
      else
        ⟨addStudentIfAbsent st.students row.github_username noForkStudent,
         st.attempts⟩
    | none =>
      ⟨addStudentIfAbsent st.students row.github_username noForkStudent,
       st.attempts⟩
  else st

/-- Fold of `processRow` over the rows of one assignment. -/
def processAssignmentRows (fetchRepo : Str → Option RepoInfo)
    (fetchRuns : Str → Option WorkflowInfo) (assignment_name : Str)
    (st : ProcessState) (rows : List CsvRow) : ProcessState :=
  rows.foldl (processRow fetchRepo fetchRuns assignment_name) st

/-- C5 concrete input: a grade row with no repository URL. -/
def c5NoUrlRow : CsvRow := ⟨"alice".toList, [], some 10⟩

/-- A fork repository created at 0 and last updated at 7200 seconds. -/
def c5ForkInfo : RepoInfo := ⟨some 0, some 7200, true⟩

/-- A repository that exists but is not a fork. -/
def c5NotForkInfo : RepoInfo := ⟨some 0, some 0, false⟩

/-- Repository-metadata oracle of the three-student scenario: `u1`/`v1` is
not a fork, `u2`/`v2` and `u3`/`v3` are forks. -/
def c5Fetch : Str → Option RepoInfo := fun url =>
  if url = "u1".toList ∨ url = "v1".toList then some c5NotForkInfo
  else if url = "u2".toList ∨ url = "v2".toList then some c5ForkInfo
  else if url = "u3".toList ∨ url = "v3".toList then some c5ForkInfo
  else none

/-- CI-runs oracle: only the first-assignment repository of `s2` has runs;
every fetch for `s3` fails. -/
def c5Runs : Str → Option WorkflowInfo := fun url =>
  if url = "u2".toList then some ⟨3, 1, 2, some 0, some 100⟩ else none

/-- Grade rows of the first assignment in the three-student scenario. -/
def c5Rows1 : List CsvRow :=
  [⟨"s1".toList, "u1".toList, some 10⟩,
   ⟨"s2".toList, "u2".toList, some 50⟩,
   ⟨"s3".toList, "u3".toList, some 20⟩]

/-- Grade rows of the second assignment in the three-student scenario. -/
def c5Rows2 : List CsvRow :=
  [⟨"s1".toList, "v1".toList, some 10⟩,
   ⟨"s2".toList, "v2".toList, some 50⟩,
   ⟨"s3".toList, "v3".toList, some 20⟩]

/-- Final accumulation state of the three-student scenario. -/
def c5FinalState : ProcessState :=
  processAssignmentRows c5Fetch c5Runs ("assignment-2".toList)
    (processAssignmentRows c5Fetch c5Runs ("assignment-1".toList) ⟨[], []⟩ c5Rows1)
    c5Rows2

/-! ### Sink-write retry loop (`sync_*_to_supabase`, lines 791-808 and
911-928) -/

/-- One pass of `for attempt in range(max_retries)` with `remaining` further
iterations after the current one; `attempt i payload` is the upsert oracle
(`none` = success, `some e` = raised error `e`).  Returns the outcome and the
number of upsert calls made.  `remaining = 0` on entry models `range(0)`
(no attempt, silent return). -/
def syncRetryGo {α ε : Type} (attempt : Nat → α → Option ε) (payload : α) :
    Nat → Nat → Except ε Unit × Nat
  | i, 0 => (Except.ok (), i)
  | i, remaining + 1 =>
    match attempt i payload with
    | none => (Except.ok (), i + 1)
    | some e =>
      if remaining = 0 then (Except.error e, i + 1)
      else syncRetryGo attempt payload (i + 1) remaining

/-- The retry loop shared by the `sync_*_to_supabase` writers: the same
`payload` is passed to every upsert call; after `max_retries` failures the
last error is wrapped in a `SupabaseSyncError` (the `Except.error` case). -/
def syncWithRetry {α ε : Type} (attempt : Nat → α → Option ε) (payload : α)
    (maxRetries : Nat) : Except ε Unit × Nat :=
  syncRetryGo attempt payload 0 maxRetries

/-! ### Leaderboard write-back (lines 684-712) -/

/-- A stored leaderboard row: natural key plus opaque payload. -/
structure LBWriteRow where
  github_username : Str
  payload : Int
deriving DecidableEq

/-- Supabase `upsert(..., on_conflict='github_username')`: replace the row
with the same username, else append. -/
def upsertRow (t : List LBWriteRow) (e : LBWriteRow) : List LBWriteRow :=
  if t.any (fun x => x.github_username == e.github_username) then
    t.map (fun x => if x.github_username == e.github_username then e else x)
  else t ++ [e]

/-- Split into batches of `n` (the code slices `range(0, len, 10)`). -/
def chunksAux {α : Type} (n : Nat) : Nat → List α → List (List α)
  | _, [] => []
  | 0, l => [l]
  | fuel + 1, l => l.take n :: chunksAux n fuel (l.drop n)

/-- Batches of size `n`. -/
def chunks {α : Type} (n : Nat) (l : List α) : List (List α) :=
  chunksAux n l.length l

/-- One batch write (lines 698-710): try `insert` (which succeeds only if
the transport oracle `batchOk` allows it and no stored row conflicts on the
unique `github_username` key), else fall back to per-record upserts, skipping
records whose individual upsert fails (`upsertOk e = false`). -/
def writeBatch (batchOk : List LBWriteRow → Bool) (upsertOk : LBWriteRow → Bool)
    (t : List LBWriteRow) (batch : List LBWriteRow) : List LBWriteRow :=
  if batchOk batch ∧
      batch.all (fun e => !(t.any (fun x => x.github_username == e.github_username))) then
    t ++ batch
  else
    batch.foldl (fun t2 e => if upsertOk e then upsertRow t2 e else t2) t

/-- The full write-back of `refresh_admin_leaderboard` (lines 684-712): a
delete that is allowed to fail (`deleteOk = false` models the tolerated
failure of lines 686-691), then batch inserts with per-record fallback. -/
def refreshLeaderboardWrite (deleteOk : Bool) (batchOk : List LBWriteRow → Bool)
    (upsertOk : LBWriteRow → Bool) (prior newRows : List LBWriteRow) :
    List LBWriteRow :=
  (chunks 10 newRows).foldl (writeBatch batchOk upsertOk)
    (if deleteOk then [] else prior)


deriving instance DecidableEq for Except

-- DEFS-ANCHOR (further embedded definitions are inserted above the first theorem)

theorem goodChar_pyLower {c : Char} (h : goodChar c) : pyLower c = c := by
  unfold pyLower
  rcases h with h | h | h
  · rw [if_neg]; omega
  · rw [if_neg]; omega
  · subst h; decide

theorem goodChar_keepChar {c : Char} (h : goodChar c) : keepChar c = true := by
  unfold keepChar
  rcases h with h | h | h
  · simp [decide_eq_true_eq]; omega
  · simp [decide_eq_true_eq]; omega
  · subst h; decide

theorem goodChar_not_space {c : Char} (h : goodChar c) : isPySpace c = false := by
  unfold isPySpace
  rcases h with h | h | h
  · simp [decide_eq_false_iff_not]; omega
  · simp [decide_eq_false_iff_not]; omega
  · subst h; decide

theorem mem_collapseRunsAux {p : Char → Bool} {rep c : Char} :
    ∀ {b : Bool} {l : Str}, c ∈ collapseRunsAux p rep b l →
      c = rep ∨ (c ∈ l ∧ p c = false) := by
  intro b l
  induction l generalizing b with
  | nil => intro h; simp [collapseRunsAux] at h
  | cons x xs ih =>
    intro h
    by_cases hx : p x = true
    · cases b with
      | true =>
        simp only [collapseRunsAux, hx, if_pos, if_true] at h
        rcases ih h with h1 | ⟨h1, h2⟩
        · exact Or.inl h1
        · exact Or.inr ⟨List.mem_cons_of_mem _ h1, h2⟩
      | false =>
        simp only [collapseRunsAux, hx, if_true, if_false] at h
        rcases List.mem_cons.mp h with h1 | h1
        · exact Or.inl h1
        · rcases ih h1 with h2 | ⟨h2, h3⟩
          · exact Or.inl h2
          · exact Or.inr ⟨List.mem_cons_of_mem _ h2, h3⟩
    · rw [Bool.not_eq_true] at hx
      simp only [collapseRunsAux, hx, Bool.false_eq_true, if_false] at h
      rcases List.mem_cons.mp h with h1 | h1
      · exact Or.inr ⟨by simp [h1], by rwa [h1]⟩
      · rcases ih h1 with h2 | ⟨h2, h3⟩
        · exact Or.inl h2
        · exact Or.inr ⟨List.mem_cons_of_mem _ h2, h3⟩

theorem mem_dropTrailing {p : Char → Bool} {c : Char} :
    ∀ {l : Str}, c ∈ dropTrailing p l → c ∈ l := by
  intro l
  induction l with
  | nil => intro h; simp [dropTrailing] at h
  | cons x xs ih =>
    intro h
    unfold dropTrailing at h
    rcases hrec : dropTrailing p xs with _ | ⟨y, ys⟩
    · rw [hrec] at h
      by_cases hx : p x = true
      · simp [hx] at h
      · rw [Bool.not_eq_true] at hx
        simp [hx] at h
        simp [h]
    · rw [hrec] at h
      rcases List.mem_cons.mp h with h1 | h1
      · simp [h1]
      · exact List.mem_cons_of_mem _ (ih (by rw [hrec]; exact h1))

theorem mem_dropWhile {p : Char → Bool} {c : Char} {l : Str}
    (h : c ∈ l.dropWhile p) : c ∈ l :=
  (List.dropWhile_sublist p).subset h

theorem mem_stripChar {x c : Char} {l : Str} (h : c ∈ stripChar x l) : c ∈ l :=
  mem_dropWhile (mem_dropTrailing h)

/-- Every character of a normalized name is a lowercase letter, digit or
hyphen. -/
theorem goodChar_formatNamePipeline {l : Str} :
    ∀ c ∈ formatNamePipeline l, goodChar c := by
  intro c hc
  unfold formatNamePipeline at hc
  have h4 := mem_stripChar hc
  rcases mem_collapseRunsAux h4 with h | ⟨h3, hne⟩
  · subst h; right; right; rfl
  · rcases mem_collapseRunsAux h3 with h | ⟨h2, hns⟩
    · subst h; right; right; rfl
    · have hk := List.of_mem_filter h2
      unfold keepChar at hk
      simp only [Bool.or_eq_true, decide_eq_true_eq, beq_iff_eq] at hk
      rcases hk with ((h | h) | h) | h
      · exact Or.inl h
      · exact Or.inr (Or.inl h)
      · rw [h] at hns; cases hns
      · rw [h] at hne; simp at hne

theorem head?_collapseRunsAux_true {p : Char → Bool} {rep : Char} :
    ∀ {l : Str} {y : Char}, (collapseRunsAux p rep true l).head? = some y →
      p y = false := by
  intro l
  induction l with
  | nil => intro y h; simp [collapseRunsAux] at h
  | cons x xs ih =>
    intro y h
    by_cases hx : p x = true
    · simp only [collapseRunsAux, hx, if_true] at h
      exact ih h
    · rw [Bool.not_eq_true] at hx
      simp only [collapseRunsAux, hx, Bool.false_eq_true, if_false,
        List.head?_cons, Option.some.injEq] at h
      rwa [← h]

theorem chain'_collapseRunsAux {p : Char → Bool} {rep : Char} :
    ∀ (l : Str) (b : Bool), List.Chain' (noTwo p) (collapseRunsAux p rep b l) := by
  intro l
  induction l with
  | nil => intro b; simp [collapseRunsAux]
  | cons x xs ih =>
    intro b
    by_cases hx : p x = true
    · cases b with
      | true => simpa only [collapseRunsAux, hx, if_true] using ih true
      | false =>
        simp only [collapseRunsAux, hx, if_true, Bool.false_eq_true, if_false]
        rw [List.chain'_cons']
        refine ⟨?_, ih true⟩
        intro y hy
        have := head?_collapseRunsAux_true hy
        exact fun hcon => by rw [this] at hcon; exact absurd hcon.2 (by simp)
    · rw [Bool.not_eq_true] at hx
      simp only [collapseRunsAux, hx, Bool.false_eq_true, if_false]
      rw [List.chain'_cons']
      refine ⟨?_, ih false⟩
      intro y _
      exact fun hcon => by rw [hx] at hcon; exact absurd hcon.1 (by simp)

theorem chain'_dropWhile {R : Char → Char → Prop} {p : Char → Bool} {l : Str}
    (h : List.Chain' R l) : List.Chain' R (l.dropWhile p) := by
  have hsplit : l = l.takeWhile p ++ l.dropWhile p :=
    (List.takeWhile_append_dropWhile p l).symm
  rw [hsplit] at h
  exact (List.chain'_append.mp h).2.1

theorem head?_dropTrailing {p : Char → Bool} {l : Str} {y : Char}
    (h : (dropTrailing p l).head? = some y) : l.head? = some y := by
  cases l with
  | nil => simp [dropTrailing] at h
  | cons x xs =>
    unfold dropTrailing at h
    rcases hrec : dropTrailing p xs with _ | ⟨z, zs⟩ <;> rw [hrec] at h
    · by_cases hx : p x = true
      · simp [hx] at h
      · rw [Bool.not_eq_true] at hx
        simp only [hx, Bool.false_eq_true, if_false, List.head?_cons,
          Option.some.injEq] at h
        simp [h]
    · simp only [List.head?_cons, Option.some.injEq] at h
      simp [h]

theorem chain'_dropTrailing {R : Char → Char → Prop} {p : Char → Bool} :
    ∀ {l : Str}, List.Chain' R l → List.Chain' R (dropTrailing p l) := by
  intro l
  induction l with
  | nil => intro _; simp [dropTrailing]
  | cons x xs ih =>
    intro h
    rw [List.chain'_cons'] at h
    obtain ⟨hR, hchain⟩ := h
    unfold dropTrailing
    rcases hrec : dropTrailing p xs with _ | ⟨z, zs⟩
    · by_cases hx : p x = true
      · simp [hx]
      · rw [Bool.not_eq_true] at hx
        simp [hx]
    · rw [List.chain'_cons']
      constructor
      · intro y hy
        simp only [List.head?_cons, Option.mem_def, Option.some.injEq] at hy
        subst hy
        have hxy : xs.head? = some z :=
          head?_dropTrailing (l := xs) (by rw [hrec]; rfl)
        exact hR z (by rw [Option.mem_def, hxy])
      · have := ih hchain
        rwa [hrec] at this

theorem getLast?_dropTrailing {p : Char → Bool} :
    ∀ {l : Str} {y : Char}, (dropTrailing p l).getLast? = some y → p y = false := by
  intro l
  induction l with
  | nil => intro y h; simp [dropTrailing] at h
  | cons x xs ih =>
    intro y h
    unfold dropTrailing at h
    rcases hrec : dropTrailing p xs with _ | ⟨z, zs⟩ <;> rw [hrec] at h
    · by_cases hx : p x = true
      · simp [hx] at h
      · rw [Bool.not_eq_true] at hx
        simp only [hx, Bool.false_eq_true, if_false] at h
        simp only [List.getLast?_singleton, Option.some.injEq] at h
        rwa [← h]
    · rw [List.getLast?_cons_cons] at h
      exact ih (by rw [hrec]; exact h)

theorem head?_dropWhile_false {p : Char → Bool} :
    ∀ {l : Str} {y : Char}, (l.dropWhile p).head? = some y → p y = false := by
  intro l
  induction l with
  | nil => intro y h; simp at h
  | cons x xs ih =>
    intro y h
    by_cases hx : p x = true
    · rw [List.dropWhile_cons, if_pos hx] at h
      exact ih h
    · rw [Bool.not_eq_true] at hx
      rw [List.dropWhile_cons, hx] at h
      simp only [Bool.false_eq_true, if_false, List.head?_cons,
        Option.some.injEq] at h
      rwa [← h]

theorem map_eq_self_of_id {f : Char → Char} :
    ∀ {l : Str}, (∀ c ∈ l, f c = c) → l.map f = l := by
  intro l
  induction l with
  | nil => intro _; rfl
  | cons x xs ih =>
    intro h
    simp only [List.map_cons, h x (by simp), List.cons.injEq, true_and]
    exact ih (fun c hc => h c (List.mem_cons_of_mem _ hc))

theorem collapseRunsAux_eq_self {p : Char → Bool} {rep : Char} :
    ∀ {l : Str} {b : Bool}, (∀ c ∈ l, p c = false) →
      collapseRunsAux p rep b l = l := by
  intro l
  induction l with
  | nil => intro b _; rfl
  | cons x xs ih =>
    intro b h
    have hx : p x = false := h x (by simp)
    simp only [collapseRunsAux, hx, Bool.false_eq_true, if_false,
      List.cons.injEq, true_and]
    exact ih (fun c hc => h c (List.mem_cons_of_mem _ hc))

theorem collapseRunsAux_hyphen_eq_self :
    ∀ (l : Str) (b : Bool),
      List.Chain' (noTwo (fun c => c == '-')) l →
      (b = true → ∀ y, l.head? = some y → (y == '-') = false) →
      collapseRunsAux (fun c => c == '-') '-' b l = l := by
  intro l
  induction l with
  | nil => intro b _ _; rfl
  | cons x xs ih =>
    intro b hchain hhead
    rw [List.chain'_cons'] at hchain
    obtain ⟨hR, hc⟩ := hchain
    by_cases hx : (x == '-') = true
    · cases b with
      | true =>
        have := hhead rfl x (by rfl)
        rw [hx] at this; cases this
      | false =>
        simp only [collapseRunsAux, hx, if_true, Bool.false_eq_true, if_false]
        have hxs : collapseRunsAux (fun c => c == '-') '-' true xs = xs := by
          refine ih true hc ?_
          intro _ y hy
          have hRy := hR y hy
          unfold noTwo at hRy
          by_contra hcon
          rw [Bool.not_eq_false] at hcon
          exact hRy ⟨hx, hcon⟩
        rw [hxs]
        have : x = '-' := by simpa [beq_iff_eq] using hx
        rw [this]
    · rw [Bool.not_eq_true] at hx
      simp only [collapseRunsAux, hx, Bool.false_eq_true, if_false,
        List.cons.injEq, true_and]
      exact ih false hc (fun hcon => by cases hcon)

theorem dropWhile_eq_self_of_head {p : Char → Bool} {l : Str}
    (h : ∀ y, l.head? = some y → p y = false) : l.dropWhile p = l := by
  cases l with
  | nil => rfl
  | cons x xs =>
    rw [List.dropWhile_cons, h x rfl]
    simp

theorem dropTrailing_eq_self_of_getLast {p : Char → Bool} :
    ∀ {l : Str}, (∀ y, l.getLast? = some y → p y = false) →
      dropTrailing p l = l := by
  intro l
  induction l with
  | nil => intro _; rfl
  | cons x xs ih =>
    intro h
    unfold dropTrailing
    cases xs with
    | nil =>
      have hx : p x = false := h x (by rfl)
      simp [dropTrailing, hx]
    | cons z zs =>
      have hxs : dropTrailing p (z :: zs) = z :: zs := by
        refine ih ?_
        intro y hy
        exact h y (by rw [List.getLast?_cons_cons]; exact hy)
      rw [hxs]

theorem chain'_formatNamePipeline (l : Str) :
    List.Chain' (noTwo (fun c => c == '-')) (formatNamePipeline l) := by
  unfold formatNamePipeline stripChar collapseRuns
  exact chain'_dropTrailing (chain'_dropWhile (chain'_collapseRunsAux _ _))

theorem head?_formatNamePipeline {l : Str} {y : Char}
    (h : (formatNamePipeline l).head? = some y) : (y == '-') = false := by
  unfold formatNamePipeline stripChar at h
  have h2 := head?_dropTrailing (p := fun c => c == '-') h
  exact head?_dropWhile_false (p := fun c => c == '-') (y := y) h2

theorem getLast?_formatNamePipeline {l : Str} {y : Char}
    (h : (formatNamePipeline l).getLast? = some y) : (y == '-') = false := by
  unfold formatNamePipeline stripChar at h
  exact getLast?_dropTrailing (p := fun c => c == '-') (y := y) h

/-- The pure normalization pipeline is idempotent. -/
theorem formatNamePipeline_idem (l : Str) :
    formatNamePipeline (formatNamePipeline l) = formatNamePipeline l := by
  have hgood := goodChar_formatNamePipeline (l := l)
  have h1 : (formatNamePipeline l).map pyLower = formatNamePipeline l :=
    map_eq_self_of_id (fun c hc => goodChar_pyLower (hgood c hc))
  have h2 : (formatNamePipeline l).filter keepChar = formatNamePipeline l :=
    List.filter_eq_self.mpr (fun c hc => goodChar_keepChar (hgood c hc))
  have h3 : collapseRuns isPySpace '-' (formatNamePipeline l) = formatNamePipeline l :=
    collapseRunsAux_eq_self (fun c hc => goodChar_not_space (hgood c hc))
  have hch : List.Chain' (noTwo (fun c => c == '-')) (formatNamePipeline l) :=
    chain'_formatNamePipeline l
  have h4 : collapseRuns (fun c => c == '-') '-' (formatNamePipeline l) =
      formatNamePipeline l :=
    collapseRunsAux_hyphen_eq_self (formatNamePipeline l) false hch
      (fun hcon => by cases hcon)
  have h5 : (formatNamePipeline l).dropWhile (fun c => c == '-') =
      formatNamePipeline l :=
    dropWhile_eq_self_of_head (fun z hz => head?_formatNamePipeline hz)
  have h6 : dropTrailing (fun c => c == '-') (formatNamePipeline l) =
      formatNamePipeline l :=
    dropTrailing_eq_self_of_getLast (fun z hz => getLast?_formatNamePipeline hz)
  show stripChar '-'
      (collapseRuns (fun c => c == '-') '-'
        (collapseRuns isPySpace '-'
          (((formatNamePipeline l).map pyLower).filter keepChar))) =
    formatNamePipeline l
  rw [h1, h2, h3, h4]
  unfold stripChar
  rw [h5, h6]

/-! ### Claim C4: the assignment-name normalizer -/

/-- C4 counterexample: the claim "for every non-empty string x,
normalize(normalize(x)) == normalize(x)" fails at x = "!!!":
`format_assignment_name "!!!"` returns the empty string, and applying
`format_assignment_name` again raises `DataValidationError` instead of
returning the empty string. -/
theorem c4_counterexample :
    Except.bind (format_assignment_name ("!!!".toList)) format_assignment_name ≠
      format_assignment_name ("!!!".toList) := by decide

/-- C4 (amended): the normalizer is idempotent on every non-empty input whose
normalization is non-empty (on inputs whose normalization is empty a second
application raises `ValidationError`), and
`normalize "CS 101: Part 2!!" = "cs-101-part-2"`. -/
theorem c4_normalizer_idempotent :
    (∀ l : Str, l ≠ [] → formatNamePipeline l ≠ [] →
      Except.bind (format_assignment_name l) format_assignment_name =
        format_assignment_name l) ∧
    format_assignment_name ("CS 101: Part 2!!".toList) =
      Except.ok ("cs-101-part-2".toList) := by
  constructor
  · intro l hne hpipe
    have hfl : format_assignment_name l = Except.ok (formatNamePipeline l) := by
      unfold format_assignment_name
      rw [if_neg hne]
    have hf2 : format_assignment_name (formatNamePipeline l) =
        Except.ok (formatNamePipeline (formatNamePipeline l)) := by
      unfold format_assignment_name
      rw [if_neg hpipe]
    rw [hfl]
    show format_assignment_name (formatNamePipeline l) =
      Except.ok (formatNamePipeline l)
    rw [hf2, formatNamePipeline_idem]
  · decide

/-- Witness for C4: the amended idempotence applied at the concrete
input "ab". -/
theorem c4_witness :
    Except.bind (format_assignment_name ("ab".toList)) format_assignment_name =
      format_assignment_name ("ab".toList) :=
  c4_normalizer_idempotent.1 ("ab".toList) (by decide) (by decide)

/-! ### Claim C9: the assignment-listing parser -/

theorem parseAssignmentStep_eq (acc : List (Str × Str × Str)) (line : Str) :
    parseAssignmentStep acc line =
      match extractAssignmentLine line with
      | some t => acc ++ [t]
      | none => acc := by
  unfold parseAssignmentStep extractAssignmentLine
  by_cases h1 : pyStrip line ≠ []
  · by_cases h2 : 7 ≤ (splitOnChar '\t' line).length
    · rw [if_pos h1, if_pos h2, if_pos ⟨h1, h2⟩]
    · rw [if_pos h1, if_neg h2, if_neg (fun hc => h2 hc.2)]
  · rw [if_neg h1, if_neg (fun hc => h1 hc.1)]

theorem foldl_parseAssignmentStep (l : List Str) (acc : List (Str × Str × Str)) :
    l.foldl parseAssignmentStep acc = acc ++ l.filterMap extractAssignmentLine := by
  induction l generalizing acc with
  | nil => simp
  | cons x xs ih =>
    rw [List.foldl_cons, List.filterMap_cons, parseAssignmentStep_eq]
    cases hx : extractAssignmentLine x with
    | none => rw [ih]
    | some t => rw [ih, List.append_assoc]; rfl

/-- C9 counterexample: on an input with a 3-line header and one data line
with only 2 tab-separated fields, `_parse_assignments_list` returns the empty
list instead of raising the format error the claim requires. -/
theorem c9_counterexample :
    parse_assignments_list ("h1\nh2\nh3\na\tb".toList) = Except.ok [] ∧
    parse_assignments_list ("h1\nh2\nh3\na\tb".toList) ≠ Except.error () :=
  ⟨by decide, by decide⟩

/-- C9 (amended): parsing raises the format error exactly when the stripped
input has fewer than 4 lines; otherwise every non-blank data line with at
least 7 tab-separated fields yields `(field 0, field 1, field 6)`, and data
lines with fewer fields (or blank) are silently skipped, not errors. -/
theorem c9_parse_assignments :
    (∀ output : Str, (splitOnChar '\n' (pyStrip output)).length < 4 →
        parse_assignments_list output = Except.error ()) ∧
    (∀ output : Str, 4 ≤ (splitOnChar '\n' (pyStrip output)).length →
        parse_assignments_list output =
          Except.ok (((splitOnChar '\n' (pyStrip output)).drop 3).filterMap
            extractAssignmentLine)) := by
  constructor
  · intro output h
    unfold parse_assignments_list
    rw [if_pos h]
  · intro output h
    unfold parse_assignments_list
    rw [if_neg (by omega), foldl_parseAssignmentStep]
    rfl

/-- Witness for C9: both amended branches at concrete inputs: a 2-line
output is rejected, and a well-formed output with one 7-field data line
yields the line's fields 0, 1 and 6. -/
theorem c9_witness :
    parse_assignments_list ("h1\nh2".toList) = Except.error () ∧
    parse_assignments_list ("h1\nh2\nh3\nid1\tname1\tc\td\te\tf\trepo1".toList) =
      Except.ok ((((splitOnChar '\n'
          (pyStrip ("h1\nh2\nh3\nid1\tname1\tc\td\te\tf\trepo1".toList))).drop 3).filterMap
        extractAssignmentLine)) :=
  ⟨c9_parse_assignments.1 ("h1\nh2".toList) (by decide),
   c9_parse_assignments.2 ("h1\nh2\nh3\nid1\tname1\tc\td\te\tf\trepo1".toList) (by decide)⟩

/-! ### Claim C6: resolution time -/

/-- C6 counterexample: with a fork created at 3700 s and last updated at 0 s,
the code computes `int(-3700/3600) = -1` (truncation toward zero), not the
floor `-2` that the claim states. -/
theorem c6_counterexample :
    leaderboardResolutionTime true (some 3700) (some 0) ≠
      some (Int.fdiv ((0 : Int) - 3700) 3600) := by decide

/-- C6 (amended): `resolution_time_hours` is the truncation toward zero of
`(last_updated_at - fork_created_at) / 3600` seconds, which coincides with
the floor whenever `fork_created_at ≤ last_updated_at`; it is `None` whenever
`has_fork` is false or either timestamp is missing, never a placeholder. -/
theorem c6_resolution_time :
    (∀ c u : Option Int, leaderboardResolutionTime false c u = none) ∧
    (∀ (hf : Bool) (u : Option Int), leaderboardResolutionTime hf none u = none) ∧
    (∀ (hf : Bool) (c : Option Int), leaderboardResolutionTime hf c none = none) ∧
    (∀ c u : Int, leaderboardResolutionTime true (some c) (some u) =
        some (Int.tdiv (u - c) 3600)) ∧
    (∀ c u : Int, c ≤ u → Int.tdiv (u - c) 3600 = Int.fdiv (u - c) 3600) := by
  refine ⟨fun c u => rfl, ?_, ?_, fun c u => rfl, ?_⟩
  · intro hf u
    cases hf <;> cases u <;> rfl
  · intro hf c
    cases hf <;> cases c <;> rfl
  · intro c u h
    exact (Int.fdiv_eq_tdiv (by omega) (by norm_num)).symm

/-- Witness for C6: the amended theorem evaluated on a fork created at 0 s
and updated at 7200 s. -/
theorem c6_witness :
    (0 : Int) ≤ 7200 ∧ Int.tdiv ((7200 : Int) - 0) 3600 = Int.fdiv ((7200 : Int) - 0) 3600 :=
  ⟨by decide, c6_resolution_time.2.2.2.2 0 7200 (by decide)⟩

/-! ### Claim C3: the points-available inference policy -/

/-- C3: on lowercase (normalized) keys the in-memory resolution implements
exactly the four-step policy of the spec, and the three concrete examples:
rows 0,0,20 resolve to 20; all-zero rows resolve to 100 when the key contains
`part-2` and stay unset otherwise. -/
theorem c3_points_available_policy :
    (∀ (key : Str) (rows : List (Option Int)), key.map pyLower = key →
        resolvePointsAvailable key rows = resolvePointsAvailableSpec key rows) ∧
    (∀ key : Str, resolvePointsAvailable key [some 0, some 0, some 20] = some 20) ∧
    resolvePointsAvailable ("the-moria-part-2".toList) [some 0, some 0] = some 100 ∧
    resolvePointsAvailable ("the-moria-part-1".toList) [some 0, some 0] = none := by
  refine ⟨?_, ?_, by decide, by decide⟩
  · intro key rows hkey
    unfold resolvePointsAvailable resolvePointsAvailableSpec paFallback paFallbackSpec
    rw [hkey]
  · intro key
    have h : pandasMaxPA [some 0, some 0, some 20] = some 20 := rfl
    unfold resolvePointsAvailable
    rw [h]
    norm_num

/-- Witness for C3: the policy equivalence applied at a concrete lowercase
key and row list. -/
theorem c3_witness :
    resolvePointsAvailable ("abc".toList) [some 5] =
      resolvePointsAvailableSpec ("abc".toList) [some 5] :=
  c3_points_available_policy.1 ("abc".toList) [some 5] (by decide)

/-! ### Claim C1: the percentage formula -/

theorem progressTerm_eq_spec (pts : Str → Option Int) (g : GradeRow) :
    progressTerm pts g = progressTermSpec pts g := by
  unfold progressTerm progressTermSpec progressTermGuard progressTermDivisor truthyInt
  cases ha : g.points_awarded with
  | none => simp
  | some a =>
    cases hp : pts g.assignment_name with
    | none => simp
    | some p =>
      by_cases hpp : 0 < p
      · by_cases haz : a = 0
        · subst haz
          simp [hpp]
        · have : (a != 0) = true := by simpa using haz
          simp [this, hpp]
      · have : ¬ (0 : Int) < (some p).getD 0 := by simpa using hpp
        simp [this, hpp]

theorem c1ExampleValue :
    studentPercentage c1ExampleAssignments c1ExampleGrades ("student1".toList) = 25 := by
  have hguard : progressTermGuard
      (resolvedAssignmentPoints c1ExampleAssignments c1ExampleGrades)
      ⟨"student1".toList, "a1".toList, some 50⟩ = true := by decide
  have hdiv : progressTermDivisor
      (resolvedAssignmentPoints c1ExampleAssignments c1ExampleGrades)
      ⟨"student1".toList, "a1".toList, some 50⟩ = 50 := by decide
  have hfilter : c1ExampleGrades.filter
      (fun g => g.github_username = ("student1".toList)) = c1ExampleGrades := by decide
  have htot : totalSystemAssignments c1ExampleAssignments = 4 := by decide
  have hsum : sumOfProgress
      (resolvedAssignmentPoints c1ExampleAssignments c1ExampleGrades)
      c1ExampleGrades = 100 := by
    show (List.map
        (progressTerm (resolvedAssignmentPoints c1ExampleAssignments c1ExampleGrades))
        [⟨"student1".toList, "a1".toList, some 50⟩]).sum = 100
    rw [List.map_cons, List.map_nil, List.sum_cons, List.sum_nil]
    unfold progressTerm
    rw [hguard, hdiv]
    simp only [Option.getD_some]
    norm_num
  unfold studentPercentage
  rw [hfilter, htot, hsum]
  norm_num [pythonRound]

/-- C1: the leaderboard `percentage` equals the round of the sum, over the
student's grade rows with resolved positive `points_available` and non-null
`points_awarded`, of `points_awarded / points_available * 100`, divided by
the system-wide assignment count; in the concrete 1-of-4-assignments-at-100%
snapshot the percentage is 25, never 100. -/
theorem c1_percentage_formula :
    (∀ (assignments : List AssignmentRow) (grades : List GradeRow) (u : Str),
        studentPercentage assignments grades u =
          studentPercentageSpec assignments grades u) ∧
    studentPercentage c1ExampleAssignments c1ExampleGrades ("student1".toList) = 25 ∧
    studentPercentage c1ExampleAssignments c1ExampleGrades ("student1".toList) ≠ 100 := by
  refine ⟨?_, c1ExampleValue, ?_⟩
  · intro assignments grades u
    unfold studentPercentage studentPercentageSpec sumOfProgress
    have hmap : List.map
          (progressTerm (resolvedAssignmentPoints assignments grades))
          (grades.filter (fun g => g.github_username = u)) =
        List.map
          (progressTermSpec (resolvedAssignmentPoints assignments grades))
          (grades.filter (fun g => g.github_username = u)) :=
      List.map_congr_left (fun g _ => progressTerm_eq_spec _ g)
    rw [hmap]
  · rw [c1ExampleValue]
    decide

/-! ### Claim C10: no division by zero in the percentage computation -/

/-- C10: the system-wide divisor is strictly positive for every assignments
table (empty tables are replaced by 1), and whenever a per-grade term passes
its guard the per-term divisor `assignment_points.get(name, 1)` is strictly
positive, so neither division of the percentage computation divides by
zero. -/
theorem c10_no_division_by_zero :
    (∀ assignments : List AssignmentRow, 0 < totalSystemAssignments assignments) ∧
    (∀ (pts : Str → Option Int) (g : GradeRow),
        progressTermGuard pts g = true → 0 < progressTermDivisor pts g) := by
  constructor
  · intro assignments
    unfold totalSystemAssignments
    by_cases h : assignments = []
    · rw [if_pos h]
      omega
    · rw [if_neg h]
      exact List.length_pos.mpr h
  · intro pts g hg
    unfold progressTermGuard at hg
    rw [Bool.and_eq_true] at hg
    have h2 := of_decide_eq_true hg.2
    unfold progressTermDivisor
    cases hp : pts g.assignment_name with
    | none =>
      rw [hp] at h2
      simp at h2
    | some p =>
      rw [hp] at h2
      simpa using h2

/-- Witness for C10: the per-term divisor bound at a concrete lookup table
and grade row. -/
theorem c10_witness :
    progressTermGuard (fun _ => some 50) ⟨"u".toList, "a".toList, some 10⟩ = true ∧
    0 < progressTermDivisor (fun _ => some 50) ⟨"u".toList, "a".toList, some 10⟩ :=
  ⟨by decide,
   c10_no_division_by_zero.2 (fun _ => some 50) ⟨"u".toList, "a".toList, some 10⟩
     (by decide)⟩

/-! ### Claim C2: the ranking order -/

theorem strLtb_cons (a b : Char) (xs ys : Str) :
    strLtb (a :: xs) (b :: ys) =
      if a < b then true else if b < a then false else strLtb xs ys := rfl

theorem strLtb_cons_iff {a b : Char} {xs ys : Str} :
    strLtb (a :: xs) (b :: ys) = true ↔ a < b ∨ (a = b ∧ strLtb xs ys = true) := by
  rw [strLtb_cons]
  by_cases hab : a < b
  · simp [hab]
  · by_cases hba : b < a
    · have hne : a ≠ b := fun hc => by rw [hc] at hba; exact lt_irrefl b hba
      simp [hab, hba, hne]
    · have heq : a = b := le_antisymm (not_lt.mp hba) (not_lt.mp hab)
      simp [hab, hba, heq]

theorem strLtb_trichotomy : ∀ u v : Str, strLtb u v = true ∨ u = v ∨ strLtb v u = true := by
  intro u
  induction u with
  | nil =>
    intro v
    cases v with
    | nil => exact Or.inr (Or.inl rfl)
    | cons b ys => exact Or.inl rfl
  | cons a xs ih =>
    intro v
    cases v with
    | nil => exact Or.inr (Or.inr rfl)
    | cons b ys =>
      rcases lt_trichotomy a b with h | h | h
      · exact Or.inl (strLtb_cons_iff.mpr (Or.inl h))
      · rcases ih ys with h2 | h2 | h2
        · exact Or.inl (strLtb_cons_iff.mpr (Or.inr ⟨h, h2⟩))
        · exact Or.inr (Or.inl (by rw [h, h2]))
        · exact Or.inr (Or.inr (strLtb_cons_iff.mpr (Or.inr ⟨h.symm, h2⟩)))
      · exact Or.inr (Or.inr (strLtb_cons_iff.mpr (Or.inl h)))

theorem strLtb_asymm : ∀ u v : Str, strLtb u v = true → strLtb v u = false := by
  intro u
  induction u with
  | nil =>
    intro v h
    cases v with
    | nil => cases h
    | cons b ys => rfl
  | cons a xs ih =>
    intro v h
    cases v with
    | nil => cases h
    | cons b ys =>
      rw [strLtb_cons_iff] at h
      by_contra hc
      rw [Bool.not_eq_false, strLtb_cons_iff] at hc
      rcases h with h | ⟨he, ht⟩ <;> rcases hc with hc | ⟨hce, hct⟩
      · exact lt_asymm h hc
      · rw [hce] at h
        exact lt_irrefl _ h
      · rw [he] at hc
        exact lt_irrefl _ hc
      · rw [ih ys ht] at hct
        cases hct

theorem strLtb_trans : ∀ u v w : Str, strLtb u v = true → strLtb v w = true →
    strLtb u w = true := by
  intro u
  induction u with
  | nil =>
    intro v w huv hvw
    cases v with
    | nil => cases huv
    | cons b ys =>
      cases w with
      | nil => cases hvw
      | cons c zs => rfl
  | cons a xs ih =>
    intro v w huv hvw
    cases v with
    | nil => cases huv
    | cons b ys =>
      cases w with
      | nil => cases hvw
      | cons c zs =>
        rw [strLtb_cons_iff] at huv hvw ⊢
        rcases huv with h1 | ⟨e1, t1⟩ <;> rcases hvw with h2 | ⟨e2, t2⟩
        · exact Or.inl (lt_trans h1 h2)
        · exact Or.inl (e2 ▸ h1)
        · exact Or.inl (e1 ▸ h2)
        · exact Or.inr ⟨e1.trans e2, ih ys zs t1 t2⟩

theorem keyLt_trichotomy : ∀ k1 k2 : Int × Int × Str, keyLt k1 k2 ∨ k1 = k2 ∨ keyLt k2 k1 := by
  intro k1 k2
  obtain ⟨r1, p1, u1⟩ := k1
  obtain ⟨r2, p2, u2⟩ := k2
  unfold keyLt
  simp only [Prod.mk.injEq]
  rcases lt_trichotomy r1 r2 with h | h | h
  · exact Or.inl (Or.inl h)
  · rcases lt_trichotomy p1 p2 with h2 | h2 | h2
    · exact Or.inl (Or.inr ⟨h, Or.inl h2⟩)
    · rcases strLtb_trichotomy u1 u2 with h3 | h3 | h3
      · exact Or.inl (Or.inr ⟨h, Or.inr ⟨h2, h3⟩⟩)
      · exact Or.inr (Or.inl ⟨h, h2, h3⟩)
      · exact Or.inr (Or.inr (Or.inr ⟨h.symm, Or.inr ⟨h2.symm, h3⟩⟩))
    · exact Or.inr (Or.inr (Or.inr ⟨h.symm, Or.inl h2⟩))
  · exact Or.inr (Or.inr (Or.inl h))

theorem keyLt_asymm {k1 k2 : Int × Int × Str} (h : keyLt k1 k2) : ¬ keyLt k2 k1 := by
  obtain ⟨r1, p1, u1⟩ := k1
  obtain ⟨r2, p2, u2⟩ := k2
  unfold keyLt at h ⊢
  intro h2
  simp only at h h2
  rcases h with h | ⟨e, h⟩ <;> rcases h2 with h2 | ⟨e2, h2⟩
  · omega
  · omega
  · omega
  · rcases h with h | ⟨f, h⟩ <;> rcases h2 with h2 | ⟨f2, h2⟩
    · omega
    · omega
    · omega
    · rw [strLtb_asymm _ _ h] at h2
      cases h2

theorem keyLt_trans {k1 k2 k3 : Int × Int × Str} (h12 : keyLt k1 k2)
    (h23 : keyLt k2 k3) : keyLt k1 k3 := by
  obtain ⟨r1, p1, u1⟩ := k1
  obtain ⟨r2, p2, u2⟩ := k2
  obtain ⟨r3, p3, u3⟩ := k3
  unfold keyLt at h12 h23 ⊢
  simp only at h12 h23 ⊢
  rcases h12 with h12 | ⟨e12, h12⟩
  · rcases h23 with h23 | ⟨e23, h23⟩
    · exact Or.inl (by omega)
    · exact Or.inl (by omega)
  · rcases h23 with h23 | ⟨e23, h23⟩
    · exact Or.inl (by omega)
    · refine Or.inr ⟨by omega, ?_⟩
      rcases h12 with h12 | ⟨f12, h12⟩
      · rcases h23 with h23 | ⟨f23, h23⟩
        · exact Or.inl (by omega)
        · exact Or.inl (by omega)
      · rcases h23 with h23 | ⟨f23, h23⟩
        · exact Or.inl (by omega)
        · exact Or.inr ⟨by omega, strLtb_trans _ _ _ h12 h23⟩

/-- C2: `sortLeaderboard` sorts ascending in the ranking relation (time with
null as sentinel 999999, then percentage descending, then username) and is a
permutation of its input; on entries with distinct usernames the strict
ranking order is total and asymmetric (a strict total order); and the
concrete example A (10 h, 80), B (10 h, 90), C (null, 100) is ranked
B first, A second, C third. -/
theorem c2_ranking_order :
    (∀ l : List LBEntry, (sortLeaderboard l).Sorted rankLE ∧
        (sortLeaderboard l).Perm l) ∧
    (∀ a b : LBEntry, a.github_username ≠ b.github_username →
        (rankLt a b ∨ rankLt b a) ∧ ¬(rankLt a b ∧ rankLt b a)) ∧
    rankPositions [entryA, entryB, entryC] =
      [(entryB, 1), (entryA, 2), (entryC, 3)] := by
  refine ⟨?_, ?_, by decide⟩
  · intro l
    haveI : IsTotal LBEntry rankLE := ⟨fun a b => by
      unfold rankLE
      by_cases h : keyLt (rankKey a) (rankKey b)
      · exact Or.inl (keyLt_asymm h)
      · exact Or.inr h⟩
    haveI : IsTrans LBEntry rankLE := ⟨fun a b c hab hbc => by
      unfold rankLE at hab hbc ⊢
      intro hca
      rcases keyLt_trichotomy (rankKey a) (rankKey b) with h | h | h
      · exact hbc (keyLt_trans hca h)
      · rw [h] at hca
        exact hbc hca
      · exact hab h⟩
    exact ⟨List.sorted_insertionSort rankLE l, List.perm_insertionSort rankLE l⟩
  · intro a b hne
    constructor
    · rcases keyLt_trichotomy (rankKey a) (rankKey b) with h | h | h
      · exact Or.inl h
      · exfalso
        apply hne
        have h3 := congrArg (fun k => k.2.2) h
        simpa [rankKey] using h3
      · exact Or.inr h
    · rintro ⟨h1, h2⟩
      exact keyLt_asymm h1 h2

/-- Witness for C2: strict totality of the ranking order at the concrete
entries A and B. -/
theorem c2_witness :
    (rankLt entryA entryB ∨ rankLt entryB entryA) ∧
      ¬(rankLt entryA entryB ∧ rankLt entryB entryA) :=
  c2_ranking_order.2.1 entryA entryB (by decide)

/-! ### Claim C5: student aggregates for non-fork and unknown repositories -/

theorem lookup_append_singleton {l : List (Str × StudentRecord)} {u : Str}
    {r : StudentRecord} (h : l.lookup u = none) :
    (l ++ [(u, r)]).lookup u = some r := by
  induction l with
  | nil => simp [List.lookup]
  | cons x xs ih =>
    obtain ⟨k, v⟩ := x
    by_cases hk : u == k
    · simp [List.lookup, hk] at h
    · rw [List.cons_append]
      simp only [List.lookup, hk, Bool.false_eq_true, if_false] at h ⊢
      exact ih h

theorem addStudentIfAbsent_lookup (students : List (Str × StudentRecord))
    (u : Str) (r : StudentRecord) :
    (addStudentIfAbsent students u r).lookup u =
      some ((students.lookup u).getD r) := by
  unfold addStudentIfAbsent
  cases h : students.lookup u with
  | some v =>
    simp only [h, Option.isSome_some, if_true, Option.getD_some]
  | none =>
    simp only [h, Option.isSome_none, Bool.false_eq_true, if_false,
      Option.getD_none]
    exact lookup_append_singleton h

/-- C5 counterexample: a grade row whose repository URL is empty (the
"unknown: no repository URL" classification of the claim) produces no
student aggregate at all: the student dictionary stays empty, so the student
does not appear in the student table. -/
theorem c5_counterexample :
    (processRow c5Fetch c5Runs ("assignment-1".toList) ⟨[], []⟩
        c5NoUrlRow).students = [] := by decide

/-- C5 (amended): for every grade row with a NON-EMPTY repository URL whose
repository is classified not-a-fork or whose metadata fetch fails, the
username is afterwards present in the student dictionary: an absent username
is added with `has_fork = false` and null timestamps (`noForkStudent`), and
an existing record is kept unchanged (first write wins); rows with an empty
repository URL are skipped. In the three-student scenario (one student with
a non-fork repository, one with full data, one whose CI fetch fails), all
three students appear and exactly one attempt record is produced. -/
theorem c5_student_aggregate :
    (∀ (fetchRepo : Str → Option RepoInfo) (fetchRuns : Str → Option WorkflowInfo)
        (aname : Str) (st : ProcessState) (row : CsvRow),
        row.student_repository_url ≠ [] →
        (fetchRepo row.student_repository_url = none ∨
          ∃ info, fetchRepo row.student_repository_url = some info ∧
            info.is_fork = false) →
        (processRow fetchRepo fetchRuns aname st row).students.lookup
            row.github_username =
          some ((st.students.lookup row.github_username).getD noForkStudent)) ∧
    c5FinalState.students.map Prod.fst =
      ["s1".toList, "s2".toList, "s3".toList] ∧
    c5FinalState.attempts.length = 1 := by
  refine ⟨?_, by decide, by decide⟩
  intro fetchRepo fetchRuns aname st row hurl hclass
  unfold processRow
  rw [if_pos hurl]
  rcases hclass with h | ⟨info, hinfo, hfork⟩
  · simp only [h]
    exact addStudentIfAbsent_lookup _ _ _
  · simp only [hinfo, hfork, Bool.false_eq_true, if_false]
    exact addStudentIfAbsent_lookup _ _ _

/-- Witness for C5: the amended statement at the concrete non-fork row of the
three-student scenario. -/
theorem c5_witness :
    (processRow c5Fetch c5Runs ("assignment-1".toList) ⟨[], []⟩
        ⟨"s1".toList, "u1".toList, some 10⟩).students.lookup ("s1".toList) =
      some noForkStudent :=
  c5_student_aggregate.1 c5Fetch c5Runs ("assignment-1".toList) ⟨[], []⟩
    ⟨"s1".toList, "u1".toList, some 10⟩ (by decide)
    (Or.inr ⟨c5NotForkInfo, by decide, by decide⟩)

/-! ### Claim C8: sink-write retry semantics -/

theorem syncRetryGo_all_fail {α ε : Type} (attempt : Nat → α → Option ε)
    (payload : α) :
    ∀ (r i : Nat), 0 < r →
      (∀ j, i ≤ j → j < i + r → attempt j payload ≠ none) →
      ∃ e, attempt (i + r - 1) payload = some e ∧
        syncRetryGo attempt payload i r = (Except.error e, i + r) := by
  intro r
  induction r with
  | zero => intro i h; omega
  | succ r ih =>
    intro i _ hfail
    have hi : attempt i payload ≠ none := hfail i le_rfl (by omega)
    cases hai : attempt i payload with
    | none => exact absurd hai hi
    | some e =>
      unfold syncRetryGo
      simp only [hai]
      by_cases hr : r = 0
      · subst hr
        exact ⟨e, by simpa using hai, by simp⟩
      · rw [if_neg hr]
        obtain ⟨e2, he2, hgo⟩ := ih (i + 1) (Nat.pos_of_ne_zero hr)
          (fun j hj1 hj2 => hfail j (by omega) (by omega))
        refine ⟨e2, ?_, ?_⟩
        · have harr : i + (r + 1) - 1 = i + 1 + r - 1 := by omega
          rw [harr]
          exact he2
        · have harr : i + 1 + r = i + (r + 1) := by omega
          rw [hgo, harr]

theorem syncRetryGo_succeed {α ε : Type} (attempt : Nat → α → Option ε)
    (payload : α) :
    ∀ (r i k : Nat), i ≤ k → k < i + r →
      (∀ j, i ≤ j → j < k → attempt j payload ≠ none) →
      attempt k payload = none →
      syncRetryGo attempt payload i r = (Except.ok (), k + 1) := by
  intro r
  induction r with
  | zero => intro i k h1 h2; omega
  | succ r ih =>
    intro i k h1 h2 hfail hk
    unfold syncRetryGo
    by_cases hik : k = i
    · subst hik
      simp only [hk]
    · have hik2 : i < k := by omega
      have hi : attempt i payload ≠ none := hfail i le_rfl hik2
      cases hai : attempt i payload with
      | none => exact absurd hai hi
      | some e =>
        simp only [hai]
        have hr : r ≠ 0 := by omega
        rw [if_neg hr]
        exact ih (i + 1) k (by omega) (by omega)
          (fun j hj1 hj2 => hfail j (by omega) hj2) hk

/-- C8: the retry loop calls the upsert with the same payload on every
attempt; if all `max_retries` attempts fail (`max_retries > 0`), the typed
sync error carrying the LAST underlying cause is raised after exactly
`max_retries` calls; if the first success is at attempt `k`, the operation
returns successfully after exactly `k + 1` calls, with no further writes. -/
theorem c8_retry_semantics {α ε : Type} (attempt : Nat → α → Option ε)
    (payload : α) (maxRetries : Nat) (hpos : 0 < maxRetries) :
    ((∀ i, i < maxRetries → attempt i payload ≠ none) →
      ∃ e, attempt (maxRetries - 1) payload = some e ∧
        syncWithRetry attempt payload maxRetries = (Except.error e, maxRetries)) ∧
    (∀ k, k < maxRetries → (∀ i, i < k → attempt i payload ≠ none) →
      attempt k payload = none →
      syncWithRetry attempt payload maxRetries = (Except.ok (), k + 1)) := by
  constructor
  · intro hfail
    obtain ⟨e, he, hgo⟩ := syncRetryGo_all_fail attempt payload maxRetries 0 hpos
      (fun j _ hj2 => hfail j (by omega))
    refine ⟨e, by simpa using he, ?_⟩
    unfold syncWithRetry
    simpa using hgo
  · intro k hk hfail hsucc
    unfold syncWithRetry
    exact syncRetryGo_succeed attempt payload maxRetries 0 k (by omega) (by omega)
      (fun j _ hj2 => hfail j hj2) hsucc

/-- Witness for C8: with three configured retries and an oracle failing only
on the first attempt, the loop succeeds after exactly two upsert calls. -/
theorem c8_witness :
    syncWithRetry (fun i (_ : Nat) => if i = 0 then some 42 else none) 0 3 =
      (Except.ok (), 2) :=
  (c8_retry_semantics (fun i (_ : Nat) => if i = 0 then some 42 else none) 0 3
      (by decide)).2 1 (by decide)
    (fun i hi => by
      have h0 : i = 0 := by omega
      subst h0
      decide)
    (by decide)

/-! ### Claim C7: full replacement of the leaderboard table -/

theorem chunksAux_flatten {α : Type} (n : Nat) :
    ∀ (fuel : Nat) (l : List α), (chunksAux n fuel l).flatten = l := by
  intro fuel
  induction fuel with
  | zero =>
    intro l
    cases l with
    | nil => rfl
    | cons x xs => simp [chunksAux]
  | succ fuel ih =>
    intro l
    cases l with
    | nil => rfl
    | cons x xs =>
      show (List.take n (x :: xs) :: chunksAux n fuel (List.drop n (x :: xs))).flatten =
        x :: xs
      rw [List.flatten_cons, ih]
      exact List.take_append_drop n (x :: xs)

theorem foldl_upsertRow_append (upsertOk : LBWriteRow → Bool) :
    ∀ (c t : List LBWriteRow),
      (∀ e ∈ c, upsertOk e = true) →
      ((t ++ c).map (fun e => e.github_username)).Nodup →
      c.foldl (fun t2 e => if upsertOk e then upsertRow t2 e else t2) t = t ++ c := by
  intro c
  induction c with
  | nil =>
    intro t _ _
    simp
  | cons e c ih =>
    intro t hok hnd
    rw [List.foldl_cons, if_pos (hok e (by simp))]
    have hmem : e.github_username ∉ t.map (fun x => x.github_username) := by
      intro hc
      rw [List.map_append] at hnd
      have hdisj := (List.nodup_append.mp hnd).2.2
      exact hdisj hc (by simp)
    have hany : t.any (fun x => x.github_username == e.github_username) = false := by
      rw [List.any_eq_false]
      intro x hx hbeq
      apply hmem
      rw [List.mem_map]
      exact ⟨x, hx, by simpa [beq_iff_eq] using hbeq⟩
    have hupsert : upsertRow t e = t ++ [e] := by
      unfold upsertRow
      rw [hany]
      simp
    have heq : t ++ [e] ++ c = t ++ e :: c := by
      rw [List.append_assoc]
      rfl
    have hnd2 : ((t ++ [e] ++ c).map (fun x => x.github_username)).Nodup := by
      rw [heq]
      exact hnd
    rw [hupsert, ih (t ++ [e]) (fun x hx => hok x (List.mem_cons_of_mem _ hx)) hnd2,
      heq]

theorem writeBatch_append (batchOk : List LBWriteRow → Bool)
    (upsertOk : LBWriteRow → Bool) (t c : List LBWriteRow)
    (hok : ∀ e ∈ c, upsertOk e = true)
    (hnd : ((t ++ c).map (fun e => e.github_username)).Nodup) :
    writeBatch batchOk upsertOk t c = t ++ c := by
  unfold writeBatch
  by_cases hb : batchOk c ∧
      c.all (fun e => !(t.any (fun x => x.github_username == e.github_username)))
  · rw [if_pos hb]
  · rw [if_neg hb]
    exact foldl_upsertRow_append upsertOk c t hok hnd

theorem foldl_writeBatch_append (batchOk : List LBWriteRow → Bool)
    (upsertOk : LBWriteRow → Bool) :
    ∀ (cs : List (List LBWriteRow)) (t : List LBWriteRow),
      (∀ e ∈ cs.flatten, upsertOk e = true) →
      ((t ++ cs.flatten).map (fun e => e.github_username)).Nodup →
      cs.foldl (writeBatch batchOk upsertOk) t = t ++ cs.flatten := by
  intro cs
  induction cs with
  | nil =>
    intro t _ _
    simp
  | cons c cs ih =>
    intro t hok hnd
    rw [List.foldl_cons]
    have hnd1 : ((t ++ c).map (fun e => e.github_username)).Nodup := by
      have hsub : List.Sublist (t ++ c) (t ++ (c :: cs).flatten) := by
        rw [List.flatten_cons, ← List.append_assoc]
        exact List.sublist_append_left _ _
      exact hnd.sublist (hsub.map _)
    rw [writeBatch_append batchOk upsertOk t c
      (fun e he => hok e (by rw [List.flatten_cons]; exact List.mem_append_left _ he))
      hnd1]
    have heq : t ++ c ++ cs.flatten = t ++ (c :: cs).flatten := by
      rw [List.flatten_cons, List.append_assoc]
    have hnd2 : ((t ++ c ++ cs.flatten).map (fun e => e.github_username)).Nodup := by
      rw [heq]
      exact hnd
    rw [ih (t ++ c)
      (fun e he => hok e (by rw [List.flatten_cons]; exact List.mem_append_right _ he))
      hnd2, heq]

/-- C7 counterexample: when the delete step fails (which the code tolerates,
lines 686-691) the stored leaderboard keeps a row from the prior run that is
not among the recomputed entries, so the table is NOT exactly the recomputed
snapshot. -/
theorem c7_counterexample :
    refreshLeaderboardWrite false (fun _ => true) (fun _ => true)
        [⟨"old".toList, 0⟩] [⟨"new".toList, 1⟩] ≠ [⟨"new".toList, 1⟩] := by decide

/-- C7 (amended): when the initial delete succeeds, the recomputed usernames
are distinct (they come from the unique-keyed students table) and every
per-record upsert succeeds, the final leaderboard table is exactly the
recomputed entries regardless of which batch inserts fail; when the delete
fails, rows of usernames absent from the current snapshot can persist. -/
theorem c7_full_replace (batchOk : List LBWriteRow → Bool)
    (upsertOk : LBWriteRow → Bool) (prior newRows : List LBWriteRow)
    (hnd : (newRows.map (fun e => e.github_username)).Nodup)
    (hok : ∀ e ∈ newRows, upsertOk e = true) :
    refreshLeaderboardWrite true batchOk upsertOk prior newRows = newRows := by
  show (chunks 10 newRows).foldl (writeBatch batchOk upsertOk) [] = newRows
  have hfl : (chunks 10 newRows).flatten = newRows := chunksAux_flatten 10 _ _
  rw [foldl_writeBatch_append batchOk upsertOk (chunks 10 newRows) []
    (by rw [hfl]; exact hok) (by rw [List.nil_append, hfl]; exact hnd)]
  rw [List.nil_append, hfl]

/-- Witness for C7: full replacement at a concrete prior table and two
recomputed rows. -/
theorem c7_witness :
    refreshLeaderboardWrite true (fun _ => true) (fun _ => true)
        [⟨"old".toList, 0⟩] [⟨"n1".toList, 1⟩, ⟨"n2".toList, 2⟩] =
      [⟨"n1".toList, 1⟩, ⟨"n2".toList, 2⟩] :=
  c7_full_replace (fun _ => true) (fun _ => true) [⟨"old".toList, 0⟩]
    [⟨"n1".toList, 1⟩, ⟨"n2".toList, 2⟩] (by decide) (fun e _ => rfl)

end ClassroomSync
